import Mathlib

/-!
Shallow embedding of the hierarchical Gantt timeline component of the
task-tracking web application (`components/GanttChart.tsx`, with the
store-facing handlers of `app/page.tsx`).

Conventions of the embedding:
* Calendar dates are modelled as integers (days on a linear time axis);
  JavaScript `Date` comparison is numeric, so `<`/`>` on `Int` is faithful.
* A raw date field (`string | null`) is modelled by `RawDate`: `null` covers
  the JavaScript falsy values (`null`, `undefined`, `""`), `invalid` a
  non-empty string that does not parse, `valid d` a string parsing to day `d`.
* JavaScript `Set<string>` state is modelled as a `List String` queried only
  through `contains` (the code queries its sets only through `.has`);
  two lists are the "same set" when `contains` agrees.
* `Record<string, ...>` grouping built by insertion is modelled by `filter`
  over the original list, which preserves the push order of the source.
* The recursive tree walk of the source has no termination guarantee on
  cyclic `parent_id` data (a gap the code itself has); the embedding gives
  the recursion explicit fuel and the theorems about it hold for every fuel.
-/

namespace GanttZero

/-- Local `concatMap`: `concatMap f l` is `l.flatMap f`; defined locally so that all lemmas
about the row-flattening loops are self-contained. -/
def concatMap (f : α → List β) : List α → List β
  | [] => []
  | a :: l => f a ++ concatMap f l

/-! ## Dates -/

/-- A raw date field as it reaches the component: the JavaScript type is
`string | null | undefined`.  `null` stands for every falsy value
(`null`, `undefined`, the empty string); `invalid s`-like unparseable
non-empty strings are collapsed to a single constructor since only their
(failed) parse and their truthiness are ever observed; `valid d` is a
string that `new Date(...)` parses to day `d`. -/
inductive RawDate where
  | null : RawDate
  | invalid : RawDate
  | valid : Int → RawDate
  deriving DecidableEq

/-- Model of `toDate` of the source: falsy input gives `null`; a string that fails
to parse gives `null`; otherwise the parsed date. -/
def toDate : RawDate → Option Int
  | .null => none
  | .invalid => none
  | .valid d => some d

/-- JavaScript truthiness of a raw date field (`!value`). -/
def isFalsy : RawDate → Bool
  | .null => true
  | _ => false

/-- Model of `rangesIntersect` of the source: decides whether a task's date range
intersects the user-selected view window `[from, to]`.
Mirrors the source line by line: the early return when both window bounds
are falsy; `s = toDate(start) ?? toDate(end)`, `e = toDate(end) ?? toDate(start)`;
the early return when both are null; `f`/`t` null when the bound is falsy
(an unparseable truthy bound also yields null, as in the source where
`toDate(from)` returns null); then the two exclusion tests. -/
def rangesIntersect (start end_ from_ to_ : RawDate) : Bool :=
  if isFalsy from_ && isFalsy to_ then true
  else
    let s : Option Int := (toDate start).orElse (fun _ => toDate end_)
    let e : Option Int := (toDate end_).orElse (fun _ => toDate start)
    match s, e with
    | none, none => true
    | s', e' =>
      let rStart : Int := s'.getD (e'.getD 0)
      let rEnd : Int := e'.getD (s'.getD 0)
      let f : Option Int := if isFalsy from_ then none else toDate from_
      let t : Option Int := if isFalsy to_ then none else toDate to_
      if (match f with | some fv => decide (rEnd < fv) | none => false) then false
      else if (match t with | some tv => decide (rStart > tv) | none => false) then false
      else true

/-! ## Task records

Only the fields the timeline component reads are modelled (`id`, `name`,
`start_date`, `end_date`, `status`, `progress`, `assignee`, `dependencies`,
`parent_id`, `work_type`); the remaining fields of the `Task` interface
(recurrence descriptors, team, description, priority) are never touched by
the component. String-typed nullable fields are `Option String`, with the
JavaScript distinction between `null`/`undefined` (`none`) and the empty
string (`some ""`) preserved because the code tests them for truthiness. -/

structure Task where
  id : String
  name : String
  start_date : RawDate
  end_date : RawDate
  status : String
  progress : Option Int
  assignee : Option String
  dependencies : Option String
  parent_id : Option String
  work_type : Option String
  deriving DecidableEq

/-- The date filter of the component (`dateFilteredTasks` memo). -/
def dateFilteredTasks (ts : List Task) (viewFrom viewTo : RawDate) : List Task :=
  ts.filter (fun t => rangesIntersect t.start_date t.end_date viewFrom viewTo)

/-! ## Work categories -/

/-- Model of `WORK_TYPES` of the source: enumerated work categories with their
display labels, in the fixed iteration order of the component. -/
def WORK_TYPES : List (String × String) :=
  [("routine", "งานประจำ"),
   ("strategic", "งานยุทธศาสตร์"),
   ("process_improvement", "งานพัฒนากระบวนการ"),
   ("self_development", "งานพัฒนาตนเอง"),
   ("other", "งานอื่นๆ")]

/-- Model of `normalizeWorkType` of the source: `const v = raw || 'routine'` (so every
falsy raw value becomes `"routine"`), then membership in `WORK_TYPES`,
falling back to `"other"`. -/
def normalizeWorkType (raw : Option String) : String :=
  let v := match raw with
    | none => "routine"
    | some s => if s = "" then "routine" else s
  if WORK_TYPES.any (fun w => w.1 == v) then v else "other"

/-- Whether a raw string is one of the enumerated work-category values. -/
def recognizedWorkType (s : String) : Bool :=
  WORK_TYPES.any (fun w => w.1 == s)

/-! ## Tree rows -/

/-- The tagged row union of the source (`TreeRow`): an assignee header row,
a work-category header row, or a task row. -/
inductive TreeRow where
  | user (id : String) (depth : Nat) (label : String) (userKey : String)
  | category (id : String) (depth : Nat) (label : String) (userKey : String) (workType : String)
  | task (id : String) (depth : Nat) (label : String) (task : Task)
  deriving DecidableEq

/-- The stable identifier a row carries (`row.id` in the source). -/
def TreeRow.rowId : TreeRow → String
  | .user i _ _ _ => i
  | .category i _ _ _ _ => i
  | .task i _ _ _ => i

/-- The display label of a row (`row.label`). -/
def TreeRow.rowLabel : TreeRow → String
  | .user _ _ l _ => l
  | .category _ _ l _ _ => l
  | .task _ _ l _ => l

/-- The indent depth of a row (`row.depth`). -/
def TreeRow.rowDepth : TreeRow → Nat
  | .user _ d _ _ => d
  | .category _ d _ _ _ => d
  | .task _ d _ _ => d

/-- The grouping key of a task's assignee: `t.assignee || '__unassigned__'`
(the empty string is falsy in JavaScript). -/
def userKeyOf (t : Task) : String :=
  match t.assignee with
  | none => "__unassigned__"
  | some s => if s = "" then "__unassigned__" else s

/-- The label stored for an assignee bucket:
`key === '__unassigned__' ? 'Unassigned' : key`. -/
def labelOfKey (k : String) : String :=
  if k = "__unassigned__" then "Unassigned" else k

/-- Identifier of an assignee header row: `user:<assigneeKey>`. -/
def userRowId (k : String) : String := "user:" ++ k

/-- Identifier of a category header row: `cat:<assigneeKey>:<categoryKey>`. -/
def catRowId (k v : String) : String := "cat:" ++ k ++ ":" ++ v

/-- The distinct assignee keys in first-occurrence order (the key set of the
`byUser` record, whose string keys enumerate in insertion order). -/
def userKeys (ts : List Task) : List String :=
  ts.foldl (fun acc t => if acc.contains (userKeyOf t) then acc else acc ++ [userKeyOf t]) []

/-- Insert a key into a list sorted by bucket label (models the
`sort` by `label.localeCompare`; collation is modelled by the string order). -/
def insertByLabel (k : String) : List String → List String
  | [] => [k]
  | k' :: l => if labelOfKey k ≤ labelOfKey k' then k :: k' :: l else k' :: insertByLabel k l

/-- Model of `sortedUserKeys` of the source: the assignee keys sorted by label. -/
def sortedUserKeys (ts : List Task) : List String :=
  (userKeys ts).foldr insertByLabel []

/-- The tasks pushed into the bucket of assignee key `k`
(`byUser[key].tasks`, in the push order of the source loop). -/
def tasksOfUser (ts : List Task) (k : String) : List Task :=
  ts.filter (fun t => userKeyOf t == k)

/-- The tasks of one work-category inside an assignee bucket
(`catTasksAll = userInfo.tasks.filter(t => normalizeWorkType(t.work_type) === wt.value)`). -/
def catTasks (uts : List Task) (v : String) : List Task :=
  uts.filter (fun t => normalizeWorkType t.work_type == v)

/-- The key a task is filed under in `childrenByParent`
(`t.parent_id || 'root'`; the empty string is falsy). -/
def parentKeyOf (t : Task) : String :=
  match t.parent_id with
  | none => "root"
  | some p => if p = "" then "root" else p

/-- The key used to look a parent up in `childrenByParent`
(`parentId || 'root'`). -/
def pkeyOf : Option String → String
  | none => "root"
  | some s => if s = "" then "root" else s

/-- Lookup `childrenByParent[parentId || 'root']`: the bucket's tasks filed under
the given parent key, in the push order of the source. -/
def childrenOf (bucket : List Task) (parentId : Option String) : List Task :=
  bucket.filter (fun t => parentKeyOf t == pkeyOf parentId)

/-- Model of `walkTasks` of the source: the depth-first emission loop over one
category bucket.  A row is pushed only when `parentHidden` is false; the
walk always descends, carrying `parentHidden || collapsed.has(t.id)`.
The source recursion has no termination argument (it diverges on cyclic
`parent_id` chains); the embedding adds explicit fuel, and every theorem
about the walk holds for every fuel value. -/
def walkTasks (bucket : List Task) (collapsed : List String) :
    Nat → Option String → Nat → Bool → List TreeRow
  | 0, _, _, _ => []
  | fuel + 1, parentId, depth, parentHidden =>
    concatMap
      (fun t =>
        (if parentHidden then [] else [TreeRow.task t.id depth t.name t]) ++
        walkTasks bucket collapsed fuel (some t.id) (depth + 1)
          (parentHidden || collapsed.contains t.id))
      (childrenOf bucket parentId)

/-- The rows one work type contributes inside an assignee bucket (the body
of the `for (const wt of WORK_TYPES)` loop): nothing when the type is
filtered out or has no tasks; the category header row alone when that row
is collapsed; otherwise the category header row followed by the walked
task rows (starting at depth 2, from the root parent key). -/
def catRowsFor (collapsed workTypeFilter : List String) (k : String) (uts : List Task)
    (wt : String × String) : List TreeRow :=
  if workTypeFilter.contains wt.1 then
    if (catTasks uts wt.1).isEmpty then []
    else if collapsed.contains (catRowId k wt.1) then
      [TreeRow.category (catRowId k wt.1) 1 wt.2 k wt.1]
    else
      TreeRow.category (catRowId k wt.1) 1 wt.2 k wt.1 ::
        walkTasks (catTasks uts wt.1) collapsed ((catTasks uts wt.1).length + 1) none 2 false
  else []

/-- The rows contributed by one assignee bucket: the assignee header row;
then, unless the assignee row is collapsed, the rows of each work type in
the fixed `WORK_TYPES` order. -/
def rowsForUser (collapsed workTypeFilter : List String) (k : String) (uts : List Task) :
    List TreeRow :=
  if collapsed.contains (userRowId k) then [TreeRow.user (userRowId k) 0 (labelOfKey k) k]
  else
    TreeRow.user (userRowId k) 0 (labelOfKey k) k ::
      concatMap (catRowsFor collapsed workTypeFilter k uts) WORK_TYPES

/-- Model of `treeRows` of the source: the ordered, flattened row list
(assignee > category > task/subtask) for the given (already date-filtered)
task collection, collapse set and work-category filter. -/
def treeRows (ts : List Task) (collapsed workTypeFilter : List String) : List TreeRow :=
  if ts.isEmpty then []
  else concatMap (fun k => rowsForUser collapsed workTypeFilter k (tasksOfUser ts k))
    (sortedUserKeys ts)

/-- Model of `toggleCollapse` of the source: flip one identifier in the collapse set
(`next.delete(id)` when present, `next.add(id)` otherwise). -/
def toggleCollapse (prev : List String) (id : String) : List String :=
  if prev.contains id then prev.filter (fun x => x != id)
  else prev ++ [id]

/-- Model of `handleToggleWorkType` of the source: checking a category adds its value
to the filter unless already present; unchecking removes it. -/
def handleToggleWorkType (prev : List String) (value : String) (checked : Bool) : List String :=
  if checked then
    if prev.contains value then prev else prev ++ [value]
  else prev.filter (fun v => v != value)

/-! ## Chart projection -/

/-- A date string handed to the chart library: either the output of
`formatInputDate` on a parsed day (which re-parses to that day), or the raw
field passed through unformatted (possibly null/unparseable). -/
inductive ChartDate where
  | fmt (d : Int)
  | raw (r : RawDate)
  deriving DecidableEq

/-- The status style tag of a task bar:
`'status-' + (t.status || '').toLowerCase().replace(/\s/g, '')`. -/
def statusClass (status : String) : String :=
  "status-" ++ String.mk ((status.toLower).data.filter (fun c => !c.isWhitespace))

/-- One entry of the list handed to the chart library. -/
structure GanttTask where
  id : String
  name : String
  start : ChartDate
  end_ : ChartDate
  progress : Int
  dependencies : String
  custom_class : String
  deriving DecidableEq

/-- The chart entry built for one tree row (the body of the
`treeRows.map` in the source).  Task rows clamp their parsed dates into the
view window and fall back to the raw field when a date does not parse;
header rows get a synthetic one-day bar anchored at the view start (or
`today` when the view start is absent or unparseable). -/
def ganttTaskOfRow (today : Int) (viewFrom viewTo : RawDate) : TreeRow → GanttTask
  | .task i _depth lbl t =>
    let fromD := toDate viewFrom
    let toD := toDate viewTo
    let origStart := toDate t.start_date
    let origEnd := toDate t.end_date
    let displayStart :=
      match fromD, origStart with
      | some f, some s => some (if s < f then f else s)
      | _, _ => origStart
    let displayEnd :=
      match toD, origEnd with
      | some tv, some e => some (if e > tv then tv else e)
      | _, _ => origEnd
    let startStr := match displayStart with
      | some d => ChartDate.fmt d
      | none => ChartDate.raw t.start_date
    let endStr := match displayEnd with
      | some d => ChartDate.fmt d
      | none => ChartDate.raw t.end_date
    { id := i, name := lbl, start := startStr, end_ := endStr,
      progress := t.progress.getD 0,
      dependencies := t.dependencies.getD "",
      custom_class := statusClass t.status }
  | .user i _ lbl _ =>
    let baseDate := (toDate viewFrom).getD today
    { id := i, name := lbl, start := ChartDate.fmt baseDate,
      end_ := ChartDate.fmt (baseDate + 1), progress := 0, dependencies := "",
      custom_class := "row-user-header" }
  | .category i _ lbl _ _ =>
    let baseDate := (toDate viewFrom).getD today
    { id := i, name := lbl, start := ChartDate.fmt baseDate,
      end_ := ChartDate.fmt (baseDate + 1), progress := 0, dependencies := "",
      custom_class := "row-category-header" }

/-- Model of `ganttTasks` of the source: one chart entry per tree row, in order. -/
def ganttTasks (today : Int) (viewFrom viewTo : RawDate) (rows : List TreeRow) :
    List GanttTask :=
  rows.map (ganttTaskOfRow today viewFrom viewTo)

/-! ## Tree panel rendering -/

/-- Model of `taskHasChildren` of the source: whether some task of the filtered
collection names this id as its (truthy) `parent_id`. -/
def taskHasChildren (ts : List Task) (id : String) : Bool :=
  ts.any (fun t =>
    match t.parent_id with
    | some p => p != "" && p == id
    | none => false)

/-- One rendered row of the side tree panel: its React key (the row id),
label, pixel indent, and caret (`some isCollapsed` when the row shows a
caret, `none` when it shows the fixed-width spacer). -/
structure TreeCell where
  id : String
  label : String
  indentPx : Nat
  caret : Option Bool
  deriving DecidableEq

/-- The tree-panel cell rendered for one row: user/category rows always show
a caret; task rows show one exactly when `taskHasChildren` holds. -/
def treeCellOfRow (ts : List Task) (collapsed : List String) (row : TreeRow) : TreeCell :=
  { id := row.rowId
    label := row.rowLabel
    indentPx := row.rowDepth * 16
    caret :=
      match row with
      | .user .. => some (collapsed.contains row.rowId)
      | .category .. => some (collapsed.contains row.rowId)
      | .task i _ _ _ =>
        if taskHasChildren ts i then some (collapsed.contains row.rowId) else none }

/-- The tree panel render: one cell per tree row, in order. -/
def treePanel (ts : List Task) (collapsed : List String) (rows : List TreeRow) :
    List TreeCell :=
  rows.map (treeCellOfRow ts collapsed)

/-! ## Chart interaction handlers -/

/-- Model of `taskById` of the source: the record built by
`for t of dateFilteredTasks: if (t.id) map[t.id] = t` — empty ids are
skipped and a later task with the same id overwrites an earlier one, so a
lookup returns the last matching task with a non-empty id. -/
def taskById (ts : List Task) (id : String) : Option Task :=
  ((ts.filter (fun t => t.id != "")).reverse).find? (fun t => t.id == id)

/-- An observable action of the chart interaction handlers: a store write
(a date update or a progress update against the `tasks` table), a
`console.error` of a store error, or the `onTaskUpdate()` full reload of
the task collection. -/
inductive ChartAction where
  | updateDates (id : String) (newStart newEnd : Int)
  | updateProgress (id : String) (progress : Int)
  | logError
  | reloadTasks
  deriving DecidableEq

/-- Whether an action is a write against the external row store. -/
def isStoreWrite : ChartAction → Bool
  | .updateDates _ _ _ => true
  | .updateProgress _ _ => true
  | _ => false

/-- Model of `on_date_change` of the source, as its emitted action sequence.  The
dragged row's id is looked up in `taskById`; a miss (header rows) returns
with no action at all.  On a hit the handler issues the store date update,
logs when the result carries an error, and calls `onTaskUpdate()`
unconditionally — also on the error path. -/
def on_date_change (ts : List Task) (id : String) (newStart newEnd : Int)
    (storeError : Bool) : List ChartAction :=
  match taskById ts id with
  | none => []
  | some _ =>
    [ChartAction.updateDates id newStart newEnd] ++
      (if storeError then [ChartAction.logError] else []) ++
      [ChartAction.reloadTasks]

/-- Model of `on_progress_change` of the source, as its emitted action sequence;
same shape as `on_date_change` with a progress update. -/
def on_progress_change (ts : List Task) (id : String) (progress : Int)
    (storeError : Bool) : List ChartAction :=
  match taskById ts id with
  | none => []
  | some _ =>
    [ChartAction.updateProgress id progress] ++
      (if storeError then [ChartAction.logError] else []) ++
      [ChartAction.reloadTasks]

/-! ## Page-level store handlers (`app/page.tsx`) -/

/-- An observable action of the page-level handlers: a store write, a
`console.error`, a user-facing `alert`, closing the modal, or the
`loadTasks()` reload. -/
inductive PageAction where
  | storeUpdate
  | storeInsert
  | storeDelete
  | logError
  | alertMsg (msg : String)
  | closeModal
  | reload
  deriving DecidableEq

/-- JavaScript `String.prototype.trim`: strip leading and trailing
whitespace (modelled over the character list). -/
def trimString (s : String) : String :=
  String.mk (((s.data.dropWhile Char.isWhitespace).reverse.dropWhile Char.isWhitespace).reverse)

/-- The blank-name guard of `handleSaveTask`:
`!partial.name || !partial.name.trim()`. -/
def nameBlank : Option String → Bool
  | none => true
  | some s => trimString s == ""

/-- Model of `handleSaveTask` of the source, as its emitted action sequence.
Guards first (`canEditTasks`, a non-blank name); then one update (when a
task is selected) or one insert; an error result logs, alerts and returns
before the modal close and the reload. -/
def handleSaveTask (canEdit : Bool) (name : Option String) (selectedTask : Option String)
    (storeError : Option String) : List PageAction :=
  if !canEdit then []
  else if nameBlank name then
    [PageAction.alertMsg "Please enter a task name."]
  else
    match selectedTask with
    | some _ =>
      match storeError with
      | some m =>
        [PageAction.storeUpdate, PageAction.logError,
         PageAction.alertMsg ("Cannot update task: " ++ m)]
      | none => [PageAction.storeUpdate, PageAction.closeModal, PageAction.reload]
    | none =>
      match storeError with
      | some m =>
        [PageAction.storeInsert, PageAction.logError,
         PageAction.alertMsg ("Cannot create task: " ++ m)]
      | none => [PageAction.storeInsert, PageAction.closeModal, PageAction.reload]

/-- Model of `handleDeleteTask` of the source, as its emitted action sequence. -/
def handleDeleteTask (canEdit : Bool) (storeError : Option String) : List PageAction :=
  if !canEdit then []
  else
    match storeError with
    | some m =>
      [PageAction.storeDelete, PageAction.logError,
       PageAction.alertMsg ("Cannot delete task: " ++ m)]
    | none => [PageAction.storeDelete, PageAction.closeModal, PageAction.reload]

/-! ## Default-collapse latch (the one-shot effect) -/

/-- The component state the default-collapse effect touches: the one-shot
latch (`initialCollapseAppliedRef`) and the collapse set. -/
structure GanttState where
  latch : Bool
  collapsed : List String
  deriving DecidableEq

/-- The identifiers of the category-level rows of a build, in order. -/
def categoryIds (rows : List TreeRow) : List String :=
  rows.filterMap (fun r =>
    match r with
    | .category i _ _ _ _ => some i
    | _ => none)

/-- JavaScript `Set.add`: append the id unless already present. -/
def addUnique (l : List String) (i : String) : List String :=
  if l.contains i then l else l ++ [i]

/-- The default-collapse effect of the source: return immediately when the
latch is set or the built row list is empty; otherwise set the latch and add
every category row id of the build to the collapse set. -/
def defaultCollapseEffect (rows : List TreeRow) (s : GanttState) : GanttState :=
  if s.latch then s
  else if rows.isEmpty then s
  else { latch := true, collapsed := (categoryIds rows).foldl addUnique s.collapsed }

/-- An event of the component's lifetime that can touch the collapse state:
a rebuild of the row list (running the default-collapse effect) or a user
collapse toggle. -/
inductive GEvent where
  | rebuild (rows : List TreeRow)
  | toggle (id : String)

/-- One step of the collapse-state machine. -/
def stepEvent (s : GanttState) : GEvent → GanttState
  | .rebuild rows => defaultCollapseEffect rows s
  | .toggle id => { s with collapsed := toggleCollapse s.collapsed id }

/-- Whether an event makes the default-collapse effect actually fire
(reach its state-writing branch). -/
def firesOn (s : GanttState) : GEvent → Bool
  | .rebuild rows => !s.latch && !rows.isEmpty
  | .toggle _ => false

/-- How many times the default-collapse effect fires along an event trace. -/
def countFires : GanttState → List GEvent → Nat
  | _, [] => 0
  | s, e :: es => (if firesOn s e then 1 else 0) + countFires (stepEvent s e) es

/-- Spec-side predicate: day `x` lies inside the view window, each bound
constraining only when it parses (both bounds inclusive, each optional). -/
def inWindow (from_ to_ : RawDate) (x : Int) : Prop :=
  (∀ fv, toDate from_ = some fv → fv ≤ x) ∧ (∀ tv, toDate to_ = some tv → x ≤ tv)

/-- Spec-side predicate: the window is well-formed — whenever both bounds
parse, `from` is not after `to`. -/
def windowWF (from_ to_ : RawDate) : Prop :=
  match toDate from_, toDate to_ with
  | some fv, some tv => fv ≤ tv
  | _, _ => True

/-- Clear ancestor path: task `t` is reachable in the bucket's
parent→children map from parent key `p` through a chain of strict ancestors
none of which is in the collapse set.  This is exactly the reachability the
depth-first walk realizes: a task row is emitted iff such a path from the
root key exists. -/
inductive ClearPath (bucket : List Task) (collapsed : List String) :
    Option String → Task → Prop where
  | here : ∀ {p t}, t ∈ childrenOf bucket p → ClearPath bucket collapsed p t
  | via : ∀ {p a t}, a ∈ childrenOf bucket p → collapsed.contains a.id = false →
      ClearPath bucket collapsed (some a.id) t → ClearPath bucket collapsed p t

/-- The row is a category header row of assignee key `k`. -/
def isCatRowOfUser (row : TreeRow) (k : String) : Prop :=
  ∃ i d lbl v, row = TreeRow.category i d lbl k v

/-- The row is a task row whose task belongs to assignee key `k`. -/
def isTaskRowOfUser (row : TreeRow) (k : String) : Prop :=
  ∃ i d lbl t0, row = TreeRow.task i d lbl t0 ∧ userKeyOf t0 = k

/-- The row is a task row of assignee key `k` and normalized work type `v`. -/
def isTaskRowOfCat (row : TreeRow) (k v : String) : Prop :=
  ∃ i d lbl t0, row = TreeRow.task i d lbl t0 ∧ userKeyOf t0 = k ∧
    normalizeWorkType t0.work_type = v

/-- The row is a category header row of work type `v` (any assignee). -/
def isCatRowOfType (row : TreeRow) (v : String) : Prop :=
  ∃ i d lbl k, row = TreeRow.category i d lbl k v

/-- The row is a task row of normalized work type `v` (any assignee). -/
def isTaskRowOfType (row : TreeRow) (v : String) : Prop :=
  ∃ i d lbl t0, row = TreeRow.task i d lbl t0 ∧ normalizeWorkType t0.work_type = v

/-- The initial work-type filter of the component: every category value
(`WORK_TYPES.map(w => w.value)`). -/
def defaultWorkTypeFilter : List String := WORK_TYPES.map Prod.fst

/-- A concrete task whose work-category field is the empty string. -/
def emptyWorkTypeTask : Task where
  id := "t1"
  name := "Task 1"
  start_date := RawDate.valid 10
  end_date := RawDate.valid 20
  status := "To Do"
  progress := some 30
  assignee := some "A"
  dependencies := none
  parent_id := none
  work_type := some ""

/-- A concrete task list for the chart-interaction witnesses. -/
def dragTask : Task where
  id := "t1"
  name := "Task 1"
  start_date := RawDate.valid 10
  end_date := RawDate.valid 20
  status := "In Progress"
  progress := some 40
  assignee := some "A"
  dependencies := none
  parent_id := none
  work_type := some "routine"

/-- A concrete task for the C8 witness: dates `[1, 50]`, window `[3, 9]`. -/
def clampTask : Task where
  id := "t2"
  name := "Task 2"
  start_date := RawDate.valid 1
  end_date := RawDate.valid 50
  status := "In Progress"
  progress := some 10
  assignee := some "A"
  dependencies := none
  parent_id := none
  work_type := some "routine"

/-- A concrete category row for the C5 witness. -/
def c5CatRow : TreeRow := TreeRow.category "cat:A:routine" 1 "งานประจำ" "A" "routine"

/-- A concrete parent task for the C1 witness. -/
def c1Parent : Task where
  id := "p"
  name := "Parent"
  start_date := RawDate.valid 10
  end_date := RawDate.valid 20
  status := "To Do"
  progress := some 0
  assignee := some "A"
  dependencies := none
  parent_id := none
  work_type := some "routine"

/-- A concrete child task (subtask of `c1Parent`) for the C1 witness. -/
def c1Child : Task where
  id := "c"
  name := "Child"
  start_date := RawDate.valid 11
  end_date := RawDate.valid 12
  status := "To Do"
  progress := some 0
  assignee := some "A"
  dependencies := none
  parent_id := some "p"
  work_type := some "routine"

/-! ## Theorems

The collapse set is a JavaScript `Set<string>` observed only through
`.has`; accordingly "the same collapse set" below means that `contains`
agrees on every identifier.
-/

theorem mem_concatMap {f : α → List β} {l : List α} {b : β} :
    b ∈ concatMap f l ↔ ∃ a ∈ l, b ∈ f a := by
  induction l with
  | nil => simp [concatMap]
  | cons a l ih =>
    simp only [concatMap, List.mem_append, List.mem_cons, ih]
    constructor
    · rintro (h | ⟨a', ha', hb⟩)
      · exact ⟨a, Or.inl rfl, h⟩
      · exact ⟨a', Or.inr ha', hb⟩
    · rintro ⟨a', ha' | ha', hb⟩
      · exact Or.inl (ha' ▸ hb)
      · exact Or.inr ⟨a', ha', hb⟩

theorem concatMap_congr {f g : α → List β} {l : List α}
    (h : ∀ a ∈ l, f a = g a) : concatMap f l = concatMap g l := by
  induction l with
  | nil => rfl
  | cons a l ih =>
    simp only [concatMap]
    rw [h a (List.mem_cons_self a l), ih fun a' ha' => h a' (List.mem_cons_of_mem a ha')]

/-- Claim C10: Collapse toggling is a self-inverse point update of the
collapse set: toggling flips exactly the toggled identifier's membership,
leaves every other identifier's membership unchanged, and toggling the same
identifier twice restores the original collapse set (as the set observed
through `contains`). -/
theorem toggleCollapse_point_update (prev : List String) (id : String) :
    ((toggleCollapse prev id).contains id = !(prev.contains id)) ∧
    (∀ x, x ≠ id → (toggleCollapse prev id).contains x = prev.contains x) ∧
    (∀ x, (toggleCollapse (toggleCollapse prev id) id).contains x = prev.contains x) := by
  have hflip : ∀ l : List String, (toggleCollapse l id).contains id = !(l.contains id) := by
    intro l
    by_cases h : id ∈ l <;> simp [toggleCollapse, h]
  have hother : ∀ (l : List String) x, x ≠ id →
      (toggleCollapse l id).contains x = l.contains x := by
    intro l x hx
    by_cases h : id ∈ l <;> simp [toggleCollapse, h, hx]
  refine ⟨hflip prev, hother prev, ?_⟩
  intro x
  by_cases hx : x = id
  · rw [hx, hflip, hflip, Bool.not_not]
  · rw [hother _ x hx, hother _ x hx]

/-- Witness for C10: toggling `"cat:A:routine"` on the concrete collapse set
`["user:A"]` and again restores the original membership of `"user:A"`. -/
theorem toggleCollapse_point_update_witness :
    ("user:A" : String) ≠ "cat:A:routine" ∧
    (toggleCollapse ["user:A"] "cat:A:routine").contains "user:A"
      = (["user:A"] : List String).contains "user:A" :=
  ⟨by decide, (toggleCollapse_point_update ["user:A"] "cat:A:routine").2.1 "user:A" (by decide)⟩

/-- Claim C9: A task whose work-category field is null/undefined (`none`) or
the empty string is normalized to `"routine"`, so it is bucketed into the
`routine` category of its assignee and not into the `other` catch-all; the
catch-all result `"other"` arises only from the literal value `"other"`
(itself a recognized category) or from a non-empty unrecognized value. -/
theorem normalizeWorkType_falsy_routine :
    (normalizeWorkType none = "routine") ∧
    (normalizeWorkType (some "") = "routine") ∧
    (∀ s, s ≠ "" → recognizedWorkType s = false → normalizeWorkType (some s) = "other") ∧
    (∀ s, normalizeWorkType (some s) = "other" →
      s = "other" ∨ (s ≠ "" ∧ recognizedWorkType s = false)) ∧
    (∀ (uts : List Task) (t : Task), t ∈ uts →
      (t.work_type = none ∨ t.work_type = some "") →
      t ∈ catTasks uts "routine" ∧ t ∉ catTasks uts "other") := by
  refine ⟨by decide, by decide, ?_, ?_, ?_⟩
  · intro s hne hrec
    have ha : WORK_TYPES.any (fun w => w.1 == s) = false := hrec
    simp [normalizeWorkType, hne, ha]
  · intro s h
    by_cases hne : s = ""
    · subst hne
      exact absurd h (by decide)
    · cases hb : recognizedWorkType s with
      | true =>
        left
        have ha : WORK_TYPES.any (fun w => w.1 == s) = true := hb
        simpa [normalizeWorkType, hne, ha] using h
      | false => exact Or.inr ⟨hne, rfl⟩
  · intro uts t hmem hwt
    have hnorm : normalizeWorkType t.work_type = "routine" := by
      rcases hwt with h | h <;> rw [h] <;> decide
    constructor
    · simp [catTasks, hmem, hnorm]
    · simp [catTasks, hnorm]

/-- Witness for C9: a concrete task with `work_type = some ""` inside a
one-task collection lands in the `routine` bucket and not in `other`. -/
theorem normalizeWorkType_falsy_routine_witness :
    emptyWorkTypeTask ∈ [emptyWorkTypeTask] ∧
    (emptyWorkTypeTask.work_type = none ∨ emptyWorkTypeTask.work_type = some "") ∧
    (emptyWorkTypeTask ∈ catTasks [emptyWorkTypeTask] "routine" ∧
      emptyWorkTypeTask ∉ catTasks [emptyWorkTypeTask] "other") :=
  ⟨by decide, Or.inr (by decide),
    normalizeWorkType_falsy_routine.2.2.2.2 _ _ (by decide) (Or.inr (by decide))⟩

/-- Claim C6: Store writes from chart interaction happen only for task rows:
when the dragged or adjusted row's identifier does not resolve to a task in
`taskById` (assignee and category headers), the date-change and
progress-change handlers return with no store call at all; when it resolves,
dragging issues exactly one store date update carrying the new start/end and
exactly one full reload, and adjusting progress issues exactly one store
progress update (and one reload). -/
theorem chart_store_writes_only_for_tasks (ts : List Task) (id : String)
    (ns ne p : Int) (err : Bool) :
    (taskById ts id = none →
      on_date_change ts id ns ne err = [] ∧ on_progress_change ts id p err = []) ∧
    (∀ t0, taskById ts id = some t0 →
      ((on_date_change ts id ns ne err).filter isStoreWrite
          = [ChartAction.updateDates id ns ne] ∧
        (on_date_change ts id ns ne err).count ChartAction.reloadTasks = 1) ∧
      ((on_progress_change ts id p err).filter isStoreWrite
          = [ChartAction.updateProgress id p] ∧
        (on_progress_change ts id p err).count ChartAction.reloadTasks = 1)) := by
  constructor
  · intro h
    simp [on_date_change, on_progress_change, h]
  · intro t0 h
    cases err <;>
      simp [on_date_change, on_progress_change, h, isStoreWrite, List.count_cons,
        List.count_nil]

/-- Witness for C6: on the one-task collection `[dragTask]`, the header id
`"user:A"` resolves to no task and produces no action, and the task id
`"t1"` produces exactly one date update and one reload. -/
theorem chart_store_writes_only_for_tasks_witness :
    (taskById [dragTask] "user:A" = none ∧
      on_date_change [dragTask] "user:A" 5 9 false = []) ∧
    (taskById [dragTask] "t1" = some dragTask ∧
      (on_date_change [dragTask] "t1" 5 9 false).filter isStoreWrite
        = [ChartAction.updateDates "t1" 5 9]) :=
  ⟨⟨by decide,
      ((chart_store_writes_only_for_tasks [dragTask] "user:A" 5 9 0 false).1 (by decide)).1⟩,
    ⟨by decide,
      (((chart_store_writes_only_for_tasks [dragTask] "t1" 5 9 0 false).2 dragTask
        (by decide)).1).1⟩⟩

/-- Counterexample for C7: the claim says that after a failed row-store
operation no reload follows, but the chart date-change handler calls the
full reload (`onTaskUpdate()`) unconditionally — here a date update whose
result carries an error is still followed by the reload. -/
theorem store_error_abort_counterexample :
    taskById [dragTask] "t1" = some dragTask ∧
    ChartAction.reloadTasks ∈ on_date_change [dragTask] "t1" 5 9 true := by
  constructor
  · decide
  · decide

/-- Claim C7, amended: The modal-based save and delete operations abort on a
store error: they surface an alert and neither close the modal nor reload.
The chart drag/progress handlers, however, only log a store error to the
console and trigger the full reload regardless. -/
theorem store_error_abort_amended :
    (∀ ce nm sel m a, a ∈ handleSaveTask ce nm sel (some m) →
      a ≠ PageAction.reload ∧ a ≠ PageAction.closeModal) ∧
    (∀ ce nm sel m,
      (PageAction.storeUpdate ∈ handleSaveTask ce nm sel (some m) ∨
        PageAction.storeInsert ∈ handleSaveTask ce nm sel (some m)) →
      ∃ msg, PageAction.alertMsg msg ∈ handleSaveTask ce nm sel (some m)) ∧
    (∀ ce m a, a ∈ handleDeleteTask ce (some m) →
      a ≠ PageAction.reload ∧ a ≠ PageAction.closeModal) ∧
    (∀ ce m, PageAction.storeDelete ∈ handleDeleteTask ce (some m) →
      ∃ msg, PageAction.alertMsg msg ∈ handleDeleteTask ce (some m)) ∧
    (∀ ts id ns ne t0, taskById ts id = some t0 →
      ChartAction.logError ∈ on_date_change ts id ns ne true ∧
      ChartAction.reloadTasks ∈ on_date_change ts id ns ne true) ∧
    (∀ ts id p t0, taskById ts id = some t0 →
      ChartAction.logError ∈ on_progress_change ts id p true ∧
      ChartAction.reloadTasks ∈ on_progress_change ts id p true) := by
  refine ⟨?_, ?_, ?_, ?_, ?_, ?_⟩
  · intro ce nm sel m a ha
    cases ce with
    | false => simp [handleSaveTask] at ha
    | true =>
      by_cases hn : nameBlank nm = true
      · simp [handleSaveTask, hn] at ha
        simp [ha]
      · cases sel <;>
          simp [handleSaveTask, hn] at ha <;>
          rcases ha with h | h | h <;> simp [h]
  · intro ce nm sel m hs
    cases ce with
    | false =>
      exfalso
      rcases hs with h | h <;> simp [handleSaveTask] at h
    | true =>
      by_cases hn : nameBlank nm = true
      · exfalso
        rcases hs with h | h <;> simp [handleSaveTask, hn] at h
      · cases sel with
        | none => exact ⟨"Cannot create task: " ++ m, by simp [handleSaveTask, hn]⟩
        | some s => exact ⟨"Cannot update task: " ++ m, by simp [handleSaveTask, hn]⟩
  · intro ce m a ha
    cases ce with
    | false => simp [handleDeleteTask] at ha
    | true =>
      simp [handleDeleteTask] at ha
      rcases ha with h | h | h <;> simp [h]
  · intro ce m hs
    cases ce with
    | false => exfalso; simp [handleDeleteTask] at hs
    | true => exact ⟨"Cannot delete task: " ++ m, by simp [handleDeleteTask]⟩
  · intro ts id ns ne t0 h
    simp [on_date_change, h]
  · intro ts id p t0 h
    simp [on_progress_change, h]

/-- Witness for C7's amended theorem: on a concrete failed update through
the modal save handler, the alert appears and no reload action is emitted. -/
theorem store_error_abort_amended_witness :
    (PageAction.storeUpdate ∈ handleSaveTask true (some "Task 1") (some "t1") (some "boom")) ∧
    (∃ msg, PageAction.alertMsg msg ∈ handleSaveTask true (some "Task 1") (some "t1") (some "boom")) :=
  ⟨by decide,
    store_error_abort_amended.2.1 true (some "Task 1") (some "t1") "boom" (Or.inl (by decide))⟩

/-- Claim C5: The default-collapse step is one-shot: with the latch set it is
the identity; on the first build whose row list is non-empty it sets the
latch, adds every category-row identifier of that build to the collapse set
and keeps every previously collapsed identifier; user toggles never touch
the latch; rebuilds after the latch is set leave the state untouched; and
along any event trace the state-writing branch runs at most once (never
again once the latch is set). -/
theorem default_collapse_one_shot :
    (∀ s rows, s.latch = true → defaultCollapseEffect rows s = s) ∧
    (∀ (s : GanttState) rows, s.latch = false → rows ≠ [] →
      (defaultCollapseEffect rows s).latch = true ∧
      (∀ i, i ∈ categoryIds rows →
        (defaultCollapseEffect rows s).collapsed.contains i = true) ∧
      (∀ i, s.collapsed.contains i = true →
        (defaultCollapseEffect rows s).collapsed.contains i = true)) ∧
    (∀ s id, (stepEvent s (GEvent.toggle id)).latch = s.latch) ∧
    (∀ s rows, s.latch = true → stepEvent s (GEvent.rebuild rows) = s) ∧
    (∀ s es, countFires s es ≤ if s.latch then 0 else 1) := by
  have mem_addUnique : ∀ (init : List String) (a i : String),
      (i ∈ addUnique init a) ↔ (i ∈ init ∨ i = a) := by
    intro init a i
    unfold addUnique
    by_cases h : a ∈ init
    · rw [if_pos (show init.contains a = true by simpa using h)]
      exact ⟨Or.inl, fun hh => hh.elim id (fun he => he ▸ h)⟩
    · rw [if_neg (show ¬ init.contains a = true by simpa using h)]
      simp
  have contains_foldl : ∀ (l init : List String) (i : String),
      (((l.foldl addUnique init).contains i = true) ↔ (i ∈ init ∨ i ∈ l)) := by
    intro l
    induction l with
    | nil => intro init i; simp
    | cons a l ih =>
      intro init i
      rw [List.foldl_cons, ih, List.mem_cons, mem_addUnique]
      tauto
  have hid : ∀ s rows, s.latch = true → defaultCollapseEffect rows s = s := by
    intro s rows h
    simp [defaultCollapseEffect, h]
  have hfire : ∀ (s : GanttState) rows, s.latch = false → rows ≠ [] →
      (defaultCollapseEffect rows s).latch = true ∧
      (∀ i, i ∈ categoryIds rows →
        (defaultCollapseEffect rows s).collapsed.contains i = true) ∧
      (∀ i, s.collapsed.contains i = true →
        (defaultCollapseEffect rows s).collapsed.contains i = true) := by
    intro s rows h hne
    have hne' : rows.isEmpty = false := by
      cases rows with
      | nil => exact absurd rfl hne
      | cons r rs => rfl
    refine ⟨by simp [defaultCollapseEffect, h, hne'], ?_, ?_⟩
    · intro i hi
      simp only [defaultCollapseEffect, h, hne']
      simp only [Bool.false_eq_true, if_false]
      exact (contains_foldl _ _ _).2 (Or.inr hi)
    · intro i hi
      simp only [defaultCollapseEffect, h, hne']
      simp only [Bool.false_eq_true, if_false]
      exact (contains_foldl _ _ _).2 (Or.inl (by simpa using hi))
  have hlatch_mono : ∀ (s : GanttState) (e : GEvent), s.latch = true →
      (stepEvent s e).latch = true := by
    intro s e h
    cases e with
    | rebuild rows => simp [stepEvent, hid s rows h, h]
    | toggle id => simp [stepEvent, h]
  have hfires : ∀ (s : GanttState) (e : GEvent), firesOn s e = true →
      s.latch = false ∧ (stepEvent s e).latch = true := by
    intro s e h
    cases e with
    | rebuild rows =>
      simp only [firesOn, Bool.and_eq_true, Bool.not_eq_true'] at h
      refine ⟨h.1, ?_⟩
      exact (hfire s rows h.1 (List.isEmpty_eq_false.mp h.2)).1
    | toggle id => simp [firesOn] at h
  refine ⟨hid, hfire, fun s id => rfl, fun s rows h => hid s rows h, ?_⟩
  intro s es
  induction es generalizing s with
  | nil => simp [countFires]
  | cons e es ih =>
    by_cases hf : firesOn s e = true
    · obtain ⟨hl, hl'⟩ := hfires s e hf
      have hrec := ih (stepEvent s e)
      rw [hl'] at hrec
      simp at hrec
      simp only [countFires]
      rw [hf, hl]
      simp
      omega
    · have hf' : firesOn s e = false := by simpa using hf
      have hrec := ih (stepEvent s e)
      simp only [countFires, hf', Bool.false_eq_true, if_false, Nat.zero_add]
      cases hl : s.latch with
      | true =>
        rw [hlatch_mono s e hl] at hrec
        simpa using hrec
      | false =>
        have hle : countFires (stepEvent s e) es ≤ 1 := le_trans hrec (by split <;> omega)
        simpa using hle

theorem toDate_eq_some_iff {r : RawDate} {d : Int} :
    toDate r = some d ↔ r = RawDate.valid d := by
  cases r <;> simp [toDate]

theorem toDate_eq_none_iff {r : RawDate} :
    toDate r = none ↔ (r = RawDate.null ∨ r = RawDate.invalid) := by
  cases r <;> simp [toDate]

/-- Claim C3: The date filter retains exactly the tasks whose
`rangesIntersect` holds, and `rangesIntersect` realizes interval/window
intersection: a window with neither bound set passes every task; a task
with neither parseable date passes every window; a task with exactly one
parseable date is treated as the single-point interval at that date; and a
task with both dates parsed (start not after end) passes a well-formed
window iff some day lies in both its `[start, end]` interval and the
window. -/
theorem rangesIntersect_spec (start end_ from_ to_ : RawDate) :
    (∀ (ts : List Task) (t : Task), t ∈ dateFilteredTasks ts from_ to_ ↔
      (t ∈ ts ∧ rangesIntersect t.start_date t.end_date from_ to_ = true)) ∧
    (isFalsy from_ = true → isFalsy to_ = true →
      rangesIntersect start end_ from_ to_ = true) ∧
    (toDate start = none → toDate end_ = none →
      rangesIntersect start end_ from_ to_ = true) ∧
    (∀ d, ((toDate start = some d ∧ toDate end_ = none) ∨
        (toDate start = none ∧ toDate end_ = some d)) →
      (rangesIntersect start end_ from_ to_ = true ↔ inWindow from_ to_ d)) ∧
    (∀ s e, toDate start = some s → toDate end_ = some e → s ≤ e → windowWF from_ to_ →
      (rangesIntersect start end_ from_ to_ = true ↔
        ∃ x, s ≤ x ∧ x ≤ e ∧ inWindow from_ to_ x)) := by
  refine ⟨?_, ?_, ?_, ?_, ?_⟩
  · intro ts t
    simp [dateFilteredTasks, List.mem_filter]
  · intro hf ht
    simp [rangesIntersect, hf, ht]
  · intro hs he
    simp [rangesIntersect, hs, he, Option.orElse]
  · intro d hd
    rcases hd with ⟨hs, he⟩ | ⟨hs, he⟩
    · obtain rfl := toDate_eq_some_iff.mp hs
      rcases toDate_eq_none_iff.mp he with rfl | rfl <;>
        cases from_ <;> cases to_ <;>
          simp [rangesIntersect, toDate, isFalsy, inWindow, Option.orElse]
    · obtain rfl := toDate_eq_some_iff.mp he
      rcases toDate_eq_none_iff.mp hs with rfl | rfl <;>
        cases from_ <;> cases to_ <;>
          simp [rangesIntersect, toDate, isFalsy, inWindow, Option.orElse]
  · intro s e hs he hse hwf
    obtain rfl := toDate_eq_some_iff.mp hs
    obtain rfl := toDate_eq_some_iff.mp he
    have code_iff : rangesIntersect (RawDate.valid s) (RawDate.valid e) from_ to_ = true ↔
        ((∀ fv, toDate from_ = some fv → fv ≤ e) ∧
          (∀ tv, toDate to_ = some tv → s ≤ tv)) := by
      cases from_ <;> cases to_ <;>
        simp [rangesIntersect, isFalsy, toDate, Option.orElse]
    rw [code_iff]
    constructor
    · rintro ⟨h1, h2⟩
      rcases hf : toDate from_ with _ | fv
      · rcases ht : toDate to_ with _ | tv
        · exact ⟨s, le_refl s, hse, by simp [inWindow, hf, ht]⟩
        · refine ⟨s, le_refl s, hse, ?_⟩
          have hstv := h2 tv ht
          simp [inWindow, hf, ht]
          exact hstv
      · rcases ht : toDate to_ with _ | tv
        · refine ⟨max s fv, le_max_left s fv, max_le hse (h1 fv hf), ?_⟩
          simp [inWindow, hf, ht]
        · have hft : fv ≤ tv := by simpa [windowWF, hf, ht] using hwf
          refine ⟨max s fv, le_max_left s fv, max_le hse (h1 fv hf), ?_⟩
          simp only [inWindow, hf, ht]
          constructor
          · intro fv' hfv'
            cases hfv'
            exact le_max_right s fv
          · intro tv' htv'
            cases htv'
            exact max_le (h2 tv ht) hft
    · rintro ⟨x, hsx, hxe, hw⟩
      exact ⟨fun fv hf => le_trans (hw.1 fv hf) hxe,
        fun tv ht => le_trans hsx (hw.2 tv ht)⟩

/-- Witness for C3: the task `[valid 5, null]` (only a start date) against
the window `[3, 9]` exercises the single-point-interval clause. -/
theorem rangesIntersect_spec_witness :
    ((toDate (RawDate.valid 5) = some 5 ∧ toDate RawDate.null = none) ∨
      (toDate (RawDate.valid 5) = none ∧ toDate RawDate.null = some 5)) ∧
    (rangesIntersect (RawDate.valid 5) RawDate.null (RawDate.valid 3) (RawDate.valid 9) = true ↔
      inWindow (RawDate.valid 3) (RawDate.valid 9) 5) :=
  ⟨Or.inl ⟨by decide, by decide⟩,
    (rangesIntersect_spec (RawDate.valid 5) RawDate.null (RawDate.valid 3)
      (RawDate.valid 9)).2.2.2.1 5 (Or.inl ⟨by decide, by decide⟩)⟩

/-- Claim C8: For a task row whose start and end both parse with start ≤ end,
and that passed the date filter for a window whose bounds parse with
from ≤ to, the chart entry spans exactly `[max(start, from), min(end, to)]`;
in particular its start never exceeds its end and neither endpoint extends
past a window bound. -/
theorem gantt_entry_clamped (t : Task) (i : String) (d : Nat) (lbl : String)
    (today s e f tv : Int) (viewFrom viewTo : RawDate)
    (hs : toDate t.start_date = some s) (he : toDate t.end_date = some e)
    (hse : s ≤ e)
    (hf : toDate viewFrom = some f) (ht : toDate viewTo = some tv)
    (hft : f ≤ tv)
    (hpass : rangesIntersect t.start_date t.end_date viewFrom viewTo = true) :
    (ganttTaskOfRow today viewFrom viewTo (TreeRow.task i d lbl t)).start
        = ChartDate.fmt (max s f) ∧
    (ganttTaskOfRow today viewFrom viewTo (TreeRow.task i d lbl t)).end_
        = ChartDate.fmt (min e tv) ∧
    max s f ≤ min e tv := by
  obtain rfl := toDate_eq_some_iff.mp hf
  obtain rfl := toDate_eq_some_iff.mp ht
  have hsd := toDate_eq_some_iff.mp hs
  have hed := toDate_eq_some_iff.mp he
  rw [hsd, hed] at hpass
  have hcon : f ≤ e ∧ s ≤ tv := by
    by_contra hc
    rcases not_and_or.mp hc with h | h
    · have : e < f := lt_of_not_le h
      simp [rangesIntersect, isFalsy, toDate, Option.orElse, this] at hpass
    · have : tv < s := lt_of_not_le h
      simp [rangesIntersect, isFalsy, toDate, Option.orElse, this] at hpass
  obtain ⟨hfe, hstv⟩ := hcon
  have e1 : (if s < f then f else s) = max s f := by
    rcases le_or_lt f s with h | h
    · rw [if_neg (not_lt.mpr h), max_eq_left h]
    · rw [if_pos h, max_eq_right (le_of_lt h)]
  have e2 : (if e > tv then tv else e) = min e tv := by
    rcases le_or_lt e tv with h | h
    · rw [if_neg (not_lt.mpr h), min_eq_left h]
    · rw [if_pos h, min_eq_right (le_of_lt h)]
  refine ⟨?_, ?_, max_le (le_min hse hstv) (le_min hfe hft)⟩
  · simp [ganttTaskOfRow, hsd, hed, toDate, e1]
  · simp [ganttTaskOfRow, hsd, hed, toDate, e2]

/-- Witness for C8: the concrete task above is clamped to `[3, 9]`. -/
theorem gantt_entry_clamped_witness :
    rangesIntersect clampTask.start_date clampTask.end_date (RawDate.valid 3)
        (RawDate.valid 9) = true ∧
    ((ganttTaskOfRow 0 (RawDate.valid 3) (RawDate.valid 9)
        (TreeRow.task "t2" 2 "Task 2" clampTask)).start = ChartDate.fmt (max 1 3) ∧
      (ganttTaskOfRow 0 (RawDate.valid 3) (RawDate.valid 9)
        (TreeRow.task "t2" 2 "Task 2" clampTask)).end_ = ChartDate.fmt (min 50 9) ∧
      max (1 : Int) 3 ≤ min 50 9) :=
  ⟨by decide,
    gantt_entry_clamped clampTask "t2" 2 "Task 2" 0 1 50 3 9 (RawDate.valid 3)
      (RawDate.valid 9) (by decide) (by decide) (by decide) (by decide) (by decide)
      (by decide) (by decide)⟩

/-- Witness for C5: from the unlatched initial state, a first non-empty
build containing one category row sets the latch and collapses that row. -/
theorem default_collapse_one_shot_witness :
    (GanttState.mk false []).latch = false ∧ ([c5CatRow] ≠ []) ∧
    ((defaultCollapseEffect [c5CatRow] (GanttState.mk false [])).latch = true ∧
      (∀ i, i ∈ categoryIds [c5CatRow] →
        (defaultCollapseEffect [c5CatRow] (GanttState.mk false [])).collapsed.contains i = true) ∧
      (∀ i, (GanttState.mk false []).collapsed.contains i = true →
        (defaultCollapseEffect [c5CatRow] (GanttState.mk false [])).collapsed.contains i = true)) :=
  ⟨rfl, by decide,
    default_collapse_one_shot.2.1 (GanttState.mk false []) [c5CatRow] rfl (by decide)⟩

theorem mem_walkTasks {bucket collapsed : List _} :
    ∀ {fuel : Nat} {p : Option String} {depth : Nat} {hidden : Bool} {row : TreeRow},
    row ∈ walkTasks bucket collapsed fuel p depth hidden →
    ∃ t0 d0, row = TreeRow.task t0.id d0 t0.name t0 ∧ hidden = false ∧
      ClearPath bucket collapsed p t0 := by
  intro fuel
  induction fuel with
  | zero =>
    intro p depth hidden row h
    simp [walkTasks] at h
  | succ fuel ih =>
    intro p depth hidden row h
    simp only [walkTasks] at h
    rcases mem_concatMap.mp h with ⟨t0, ht0, hrow⟩
    rcases List.mem_append.mp hrow with h1 | h2
    · cases hidden with
      | true => simp at h1
      | false =>
        simp at h1
        exact ⟨t0, depth, h1, rfl, ClearPath.here ht0⟩
    · rcases ih h2 with ⟨t1, d1, hrow1, hhid, hcp⟩
      rcases Bool.or_eq_false_iff.mp hhid with ⟨hh, hc⟩
      exact ⟨t1, d1, hrow1, hh, ClearPath.via ht0 hc hcp⟩

theorem clearPath_mem {bucket : List Task} {collapsed : List String}
    {p : Option String} {t0 : Task} (h : ClearPath bucket collapsed p t0) :
    t0 ∈ bucket := by
  induction h with
  | here h' =>
    simp only [childrenOf, List.mem_filter] at h'
    exact h'.1
  | via _ _ _ ih => exact ih

theorem mem_catTasks {uts : List Task} {v : String} {t0 : Task}
    (h : t0 ∈ catTasks uts v) :
    t0 ∈ uts ∧ normalizeWorkType t0.work_type = v := by
  simpa [catTasks, List.mem_filter] using h

theorem mem_tasksOfUser {ts : List Task} {k : String} {t0 : Task}
    (h : t0 ∈ tasksOfUser ts k) :
    t0 ∈ ts ∧ userKeyOf t0 = k := by
  simpa [tasksOfUser, List.mem_filter] using h

theorem mem_catRowsFor {collapsed w : List String} {k : String} {uts : List Task}
    {wt : String × String} {row : TreeRow} (h : row ∈ catRowsFor collapsed w k uts wt) :
    w.contains wt.1 = true ∧
    (row = TreeRow.category (catRowId k wt.1) 1 wt.2 k wt.1 ∨
      (collapsed.contains (catRowId k wt.1) = false ∧
        row ∈ walkTasks (catTasks uts wt.1) collapsed
          ((catTasks uts wt.1).length + 1) none 2 false)) := by
  unfold catRowsFor at h
  by_cases hw : w.contains wt.1 = true
  · rw [if_pos hw] at h
    refine ⟨hw, ?_⟩
    by_cases hemp : (catTasks uts wt.1).isEmpty = true
    · rw [if_pos hemp] at h
      simp at h
    · rw [if_neg hemp] at h
      by_cases hcat : collapsed.contains (catRowId k wt.1) = true
      · rw [if_pos hcat] at h
        simp at h
        exact Or.inl h
      · rw [if_neg hcat] at h
        rcases List.mem_cons.mp h with h1 | h1
        · exact Or.inl h1
        · exact Or.inr ⟨by simpa using hcat, h1⟩
  · rw [if_neg hw] at h
    simp at h

theorem mem_rowsForUser {collapsed w : List String} {k : String} {uts : List Task}
    {row : TreeRow} (h : row ∈ rowsForUser collapsed w k uts) :
    row = TreeRow.user (userRowId k) 0 (labelOfKey k) k ∨
    (collapsed.contains (userRowId k) = false ∧
      ∃ wt, wt ∈ WORK_TYPES ∧ row ∈ catRowsFor collapsed w k uts wt) := by
  unfold rowsForUser at h
  by_cases hu : collapsed.contains (userRowId k) = true
  · rw [if_pos hu] at h
    simp at h
    exact Or.inl h
  · rw [if_neg hu] at h
    rcases List.mem_cons.mp h with hrow | hrow
    · exact Or.inl hrow
    · right
      refine ⟨by simpa using hu, ?_⟩
      rcases mem_concatMap.mp hrow with ⟨wt, hwt, hin⟩
      exact ⟨wt, hwt, hin⟩

theorem mem_treeRows {ts : List Task} {collapsed w : List String} {row : TreeRow}
    (h : row ∈ treeRows ts collapsed w) :
    ∃ k, row ∈ rowsForUser collapsed w k (tasksOfUser ts k) := by
  unfold treeRows at h
  by_cases hts : ts.isEmpty = true
  · rw [if_pos hts] at h
    simp at h
  · rw [if_neg hts] at h
    rcases mem_concatMap.mp h with ⟨k, _, hk⟩
    exact ⟨k, hk⟩

theorem task_row_shape {ts : List Task} {collapsed w : List String} {row : TreeRow}
    (h : row ∈ treeRows ts collapsed w)
    {i : String} {d : Nat} {lbl : String} {t0 : Task}
    (hrow : row = TreeRow.task i d lbl t0) :
    collapsed.contains (userRowId (userKeyOf t0)) = false ∧
    collapsed.contains (catRowId (userKeyOf t0) (normalizeWorkType t0.work_type)) = false ∧
    ClearPath (catTasks (tasksOfUser ts (userKeyOf t0)) (normalizeWorkType t0.work_type))
      collapsed none t0 := by
  subst hrow
  obtain ⟨k, hk⟩ := mem_treeRows h
  rcases mem_rowsForUser hk with huser | ⟨hu, wt, hwt, hrow2⟩
  · exact absurd huser (by simp)
  · obtain ⟨hw, hcase⟩ := mem_catRowsFor hrow2
    rcases hcase with hcat | ⟨hcc, hwalk⟩
    · exact absurd hcat (by simp)
    · obtain ⟨t1, d1, heq, _, hcp⟩ := mem_walkTasks hwalk
      injection heq with h1 h2 h3 h4
      subst h4
      have hmem := clearPath_mem hcp
      obtain ⟨huts, hnorm⟩ := mem_catTasks hmem
      obtain ⟨_, hukey⟩ := mem_tasksOfUser huts
      rw [hukey, hnorm]
      exact ⟨hu, hcc, hcp⟩

theorem cat_row_shape {ts : List Task} {collapsed w : List String} {row : TreeRow}
    (h : row ∈ treeRows ts collapsed w)
    {i : String} {d : Nat} {lbl k v : String}
    (hrow : row = TreeRow.category i d lbl k v) :
    collapsed.contains (userRowId k) = false ∧
    (v, lbl) ∈ WORK_TYPES ∧ w.contains v = true := by
  subst hrow
  obtain ⟨k', hk⟩ := mem_treeRows h
  rcases mem_rowsForUser hk with huser | ⟨hu, wt, hwt, hrow2⟩
  · exact absurd huser (by simp)
  · obtain ⟨hw, hcase⟩ := mem_catRowsFor hrow2
    rcases hcase with hcat | ⟨_, hwalk⟩
    · injection hcat with h1 h2 h3 h4 h5
      subst h4
      subst h5
      subst h3
      exact ⟨hu, by rcases wt with ⟨wv, wl⟩; exact hwt, hw⟩
    · obtain ⟨t1, d1, heq, _, _⟩ := mem_walkTasks hwalk
      exact absurd heq (by simp)

/-- Claim C1: Flattening suppresses every descendant of a collapsed header:
a collapsed assignee row admits no category row and no task row of that
assignee anywhere in the output; a collapsed category row admits no task
row of that assignee/category pair; and every emitted task row's task is
reachable from its bucket's root through a chain of ancestors (its
`parent_id` chain, transitively) none of which is in the collapse set —
with its owning assignee and category rows uncollapsed as well. -/
theorem treeRows_collapse_invariant (ts : List Task) (collapsed w : List String) :
    (∀ k, collapsed.contains (userRowId k) = true →
      ∀ row ∈ treeRows ts collapsed w, ¬ isCatRowOfUser row k ∧ ¬ isTaskRowOfUser row k) ∧
    (∀ k v, collapsed.contains (catRowId k v) = true →
      ∀ row ∈ treeRows ts collapsed w, ¬ isTaskRowOfCat row k v) ∧
    (∀ row ∈ treeRows ts collapsed w, ∀ i d lbl t0, row = TreeRow.task i d lbl t0 →
      collapsed.contains (userRowId (userKeyOf t0)) = false ∧
      collapsed.contains (catRowId (userKeyOf t0) (normalizeWorkType t0.work_type)) = false ∧
      ClearPath (catTasks (tasksOfUser ts (userKeyOf t0)) (normalizeWorkType t0.work_type))
        collapsed none t0) := by
  refine ⟨?_, ?_, ?_⟩
  · intro k hk row hrow
    constructor
    · rintro ⟨i, d, lbl, v, rfl⟩
      obtain ⟨hu, _, _⟩ := cat_row_shape hrow rfl
      rw [hu] at hk
      exact absurd hk (by simp)
    · rintro ⟨i, d, lbl, t0, rfl, hkey⟩
      obtain ⟨hu, _, _⟩ := task_row_shape hrow rfl
      rw [hkey] at hu
      rw [hu] at hk
      exact absurd hk (by simp)
  · intro k v hk row hrow
    rintro ⟨i, d, lbl, t0, rfl, hkey, hnorm⟩
    obtain ⟨_, hcc, _⟩ := task_row_shape hrow rfl
    rw [hkey, hnorm] at hcc
    rw [hcc] at hk
    exact absurd hk (by simp)
  · intro row hrow i d lbl t0 hrow'
    exact task_row_shape hrow hrow'

/-- Witness for C1: with assignee row `user:A` collapsed, the concrete
two-task collection under assignee `A` yields no category or task row of
`A` in the flattened output. -/
theorem treeRows_collapse_invariant_witness :
    (["user:A"] : List String).contains (userRowId "A") = true ∧
    (∀ row ∈ treeRows [c1Parent, c1Child] ["user:A"] defaultWorkTypeFilter,
      ¬ isCatRowOfUser row "A" ∧ ¬ isTaskRowOfUser row "A") :=
  ⟨by decide,
    (treeRows_collapse_invariant [c1Parent, c1Child] ["user:A"] defaultWorkTypeFilter).1
      "A" (by decide)⟩

/-- Claim C2: The identifier sequence fed to the chart equals, element for
element, the identifier sequence rendered in the tree panel: both are maps
over the same flattened row list, with exactly one chart entry per row, for
every task collection, collapse set and work-category filter. -/
theorem chart_ids_match_tree_ids (ts : List Task) (collapsed w : List String)
    (today : Int) (viewFrom viewTo : RawDate) :
    ((ganttTasks today viewFrom viewTo (treeRows ts collapsed w)).map GanttTask.id
      = (treePanel ts collapsed (treeRows ts collapsed w)).map TreeCell.id) ∧
    (ganttTasks today viewFrom viewTo (treeRows ts collapsed w)).length
      = (treeRows ts collapsed w).length ∧
    (treePanel ts collapsed (treeRows ts collapsed w)).length
      = (treeRows ts collapsed w).length := by
  refine ⟨?_, by simp [ganttTasks], by simp [treePanel]⟩
  unfold ganttTasks treePanel
  rw [List.map_map, List.map_map]
  have : ∀ rows : List TreeRow,
      rows.map (GanttTask.id ∘ ganttTaskOfRow today viewFrom viewTo)
        = rows.map (TreeCell.id ∘ treeCellOfRow ts collapsed) := by
    intro rows
    induction rows with
    | nil => rfl
    | cons r rows ih =>
      simp only [List.map_cons, ih]
      congr 1
      cases r <;> rfl
  exact this _

theorem catRowsFor_filter_congr {collapsed w1 w2 : List String} {k : String}
    {uts : List Task} (h : ∀ x, w1.contains x = w2.contains x)
    (wt : String × String) :
    catRowsFor collapsed w1 k uts wt = catRowsFor collapsed w2 k uts wt := by
  unfold catRowsFor
  rw [h wt.1]

theorem rowsForUser_filter_congr {collapsed w1 w2 : List String} {k : String}
    {uts : List Task} (h : ∀ x, w1.contains x = w2.contains x) :
    rowsForUser collapsed w1 k uts = rowsForUser collapsed w2 k uts := by
  unfold rowsForUser
  by_cases hu : collapsed.contains (userRowId k) = true
  · rw [if_pos hu, if_pos hu]
  · rw [if_neg hu, if_neg hu]
    congr 1
    exact concatMap_congr (fun wt _ => catRowsFor_filter_congr h wt)

theorem treeRows_filter_congr {ts : List Task} {collapsed w1 w2 : List String}
    (h : ∀ x, w1.contains x = w2.contains x) :
    treeRows ts collapsed w1 = treeRows ts collapsed w2 := by
  unfold treeRows
  by_cases hts : ts.isEmpty = true
  · rw [if_pos hts, if_pos hts]
  · rw [if_neg hts, if_neg hts]
    exact concatMap_congr (fun k _ => rowsForUser_filter_congr h)

theorem toggle_off_on_contains (w : List String) (v : String)
    (hv : w.contains v = true) :
    ∀ x, (handleToggleWorkType (handleToggleWorkType w v false) v true).contains x
      = w.contains x := by
  intro x
  have hoff : (handleToggleWorkType w v false).contains v = false := by
    simp [handleToggleWorkType]
  have hon : handleToggleWorkType (handleToggleWorkType w v false) v true
      = handleToggleWorkType w v false ++ [v] := by
    unfold handleToggleWorkType
    rw [if_pos rfl]
    rw [if_neg (by simp [hoff])]
  rw [hon]
  unfold handleToggleWorkType
  by_cases hx : x = v
  · subst hx
    have hxw : x ∈ w := by simpa using hv
    simp [hxw]
  · simp [hx]

/-- Claim C4: Toggling a work category off and back on is a no-op on the
flattened row list: with the collapse set held fixed, removing an active
category value removes every category row and task row of that category
from the output, and re-adding the value restores exactly the same row
list (same rows, same order). -/
theorem workTypeFilter_toggle_roundtrip (ts : List Task) (collapsed w : List String)
    (v : String) (hv : w.contains v = true) :
    (treeRows ts collapsed (handleToggleWorkType (handleToggleWorkType w v false) v true)
      = treeRows ts collapsed w) ∧
    (∀ row ∈ treeRows ts collapsed (handleToggleWorkType w v false),
      ¬ isCatRowOfType row v ∧ ¬ isTaskRowOfType row v) := by
  have hoffne : ∀ x, (handleToggleWorkType w v false).contains x = true → x ≠ v := by
    intro x hx
    simp [handleToggleWorkType] at hx
    exact hx.2
  constructor
  · exact treeRows_filter_congr (toggle_off_on_contains w v hv)
  · intro row hrow
    constructor
    · rintro ⟨i, d, lbl, k, rfl⟩
      obtain ⟨_, _, hw⟩ := cat_row_shape hrow rfl
      exact hoffne v hw rfl
    · rintro ⟨i, d, lbl, t0, rfl, hnorm⟩
      obtain ⟨k', hk⟩ := mem_treeRows hrow
      rcases mem_rowsForUser hk with huser | ⟨hu, wt, hwt, hrow2⟩
      · exact absurd huser (by simp)
      · obtain ⟨hw, hcase⟩ := mem_catRowsFor hrow2
        rcases hcase with hcat | ⟨_, hwalk⟩
        · exact absurd hcat (by simp)
        · obtain ⟨t1, d1, heq, _, hcp⟩ := mem_walkTasks hwalk
          injection heq with h1 h2 h3 h4
          subst h4
          obtain ⟨_, hnorm'⟩ := mem_catTasks (clearPath_mem hcp)
          exact hoffne wt.1 hw (hnorm' ▸ hnorm)

/-- Witness for C4: on the concrete one-task collection, toggling
`"routine"` off and back on from the default filter reproduces the same
flattened row list. -/
theorem workTypeFilter_toggle_roundtrip_witness :
    defaultWorkTypeFilter.contains "routine" = true ∧
    treeRows [c1Parent, c1Child] []
        (handleToggleWorkType (handleToggleWorkType defaultWorkTypeFilter "routine" false)
          "routine" true)
      = treeRows [c1Parent, c1Child] [] defaultWorkTypeFilter :=
  ⟨by decide,
    (workTypeFilter_toggle_roundtrip [c1Parent, c1Child] [] defaultWorkTypeFilter "routine"
      (by decide)).1⟩

end GanttZero
